import Mathlib

/-!
Verification of the register-repository core of `pyuavcan.application.register`:
the `Repository` business logic (`_repository.py`) layered over the storage
contract implemented by `SQLiteStorage` (`storage/sqlite.py`).

Modelling decisions:

* Python strings are sequences of code points; they are embedded as `List Char`
  (written `Str` below) so that every operation is kernel-computable.
* The storage backend is embedded at the level of the Storage contract that
  `SQLiteStorage` implements: a table of `(name, Entry)` rows with a unique
  primary key realised by upsert (`insert or replace`), `order by name`
  enumeration, and batched delete.  The binary serialization codec
  (`pyuavcan.dsdl.serialize`/`deserialize`) is an external collaborator and is
  not part of the model: a stored `Entry` stands for its serialized row.
* The conversion helper `convert` lives in `_primitives.py`, outside the core
  under verification; every Repository operation is therefore parametric in an
  arbitrary conversion function `cv : Value → Value → Option Value`, exactly as
  `Repository` only ever calls it as a black box.
* Exceptions are embedded with `Except`: an operation that can raise returns
  `Except RepoError Unit × Storage`, the second component being the storage
  state when the call returns or raises (a raise happens before any write, so
  the state at raise time is observable in the model).
-/

/-- A Python string: the sequence of its code points.  The lexicographic order
`≤` on `List Char` is Python's `<=` on `str` and the order produced by the
backend's `order by name`. -/
abbrev Str := List Char

/-- `uavcan.register.Value_1_0`: a tagged union with exactly one populated
variant; `empty` is the no-value variant.  The numeric-width variant set is an
external-codec concern, so a representative closed set of variants is used;
the repository logic never inspects a variant beyond identity. -/
inductive Value where
  | empty : Value
  | string (s : Str) : Value
  | unstructured (bytes : List Nat) : Value
  | bit (bits : List Bool) : Value
  | int64 (xs : List Int) : Value
  | natural64 (xs : List Nat) : Value
deriving DecidableEq

/-- `Entry`: a register's `Value` together with its mutability flag
(`storage/__init__.py` dataclass, the unit of storage). -/
structure Entry where
  value : Value
  mutable : Bool
deriving DecidableEq

/-- Errors raised by `Repository`: `MissingRegisterError(name)` and
`ConflictError` (which carries the existing value and the rejected candidate,
standing for the formatted message). -/
inductive RepoError where
  | missingRegister (name : Str) : RepoError
  | conflict (existing candidate : Value) : RepoError
deriving DecidableEq

/-- The backend table: rows of `(name, Entry)`.  The unique-primary-key
invariant of the schema is maintained by `Storage.set` (upsert). -/
structure Storage where
  regs : List (Str × Entry)
deriving DecidableEq

namespace Storage

/-- `SQLiteStorage.get`: single-row lookup by name (`where name = ?`). -/
def get (s : Storage) (name : Str) : Option Entry :=
  (s.regs.find? (fun p => p.1 = name)).map (fun p => p.2)

/-- `SQLiteStorage.set`: `insert or replace` keyed on `name` — the row with
this name (if any) is replaced, otherwise a fresh row is inserted. -/
def set (s : Storage) (name : Str) (e : Entry) : Storage :=
  ⟨s.regs.filter (fun p => ¬ p.1 = name) ++ [(name, e)]⟩

/-- `SQLiteStorage.delete`: one batched `delete from register where name = ?`
per given name; missing names are silently ignored. -/
def delete (s : Storage) (names : List Str) : Storage :=
  ⟨s.regs.filter (fun p => ¬ names.contains p.1)⟩

/-- `SQLiteStorage.count`: `select count(*)`. -/
def count (s : Storage) : Nat :=
  s.regs.length

/-- `SQLiteStorage.get_names`: `select name from register order by name`. -/
def get_names (s : Storage) : List Str :=
  List.insertionSort (· ≤ ·) (s.regs.map Prod.fst)

/-- `SQLiteStorage.get_name_at_index`: `self.get_names()[index]` guarded by
`except IndexError: return None` — Python list indexing, so a negative index
counts from the end of the sorted list. -/
def get_name_at_index (s : Storage) (index : Int) : Option Str :=
  if 0 ≤ index then
    (get_names s).get? index.toNat
  else
    let j : Int := (get_names s).length + index
    if 0 ≤ j then (get_names s).get? j.toNat else none

end Storage

/-!  `fnmatch.fnmatchcase`: case-sensitive shell-glob matching with `*`, `?`
and `[...]` (negation `[!...]`, ranges `a-b`; an unterminated `[` is a literal
character, and a `]` in the first member position of a class is a literal
member), as used by `Repository.delete`.  -/

/-- Membership of a character in a glob character class body (`a-b` is a
range; a `-` without both neighbours is a literal). -/
def classMatch (cls : List Char) (c : Char) : Bool :=
  match cls with
  | a :: '-' :: b :: rest => (decide (a ≤ c) && decide (c ≤ b)) || classMatch rest c
  | a :: rest => decide (a = c) || classMatch rest c
  | [] => false

/-- Scan a glob character class for its closing `]`; the accumulator already
holds the members read so far (reversed).  Returns the members and the rest of
the pattern, or `none` if the class is unterminated. -/
def scanClass (acc : List Char) (cs : List Char) : Option (List Char × List Char) :=
  match cs with
  | [] => none
  | c :: rest => if c = ']' then some (acc.reverse, rest) else scanClass (c :: acc) rest

/-- Parse a glob character class after the optional negation marker: the first
character is always a member (so a leading `]` is literal), then members run
until the closing `]`; `none` when unterminated (the `[` is then literal). -/
def splitClassAfter (neg : Bool) (cs : List Char) : Option (Bool × List Char × List Char) :=
  match cs with
  | [] => none
  | c :: rest => (scanClass [c] rest).map (fun r => (neg, r.1, r.2))

/-- Split a glob pattern right after a `[` into the negation flag, the class
members and the remaining pattern; a leading `!` negates. -/
def splitClass (ps : List Char) : Option (Bool × List Char × List Char) :=
  match ps with
  | [] => none
  | c :: rest => if c = '!' then splitClassAfter true rest else splitClassAfter false (c :: rest)

theorem scanClass_length (cs : List Char) :
    ∀ acc cls rest, scanClass acc cs = some (cls, rest) → rest.length < cs.length := by
  induction cs with
  | nil => intro acc cls rest h; simp [scanClass] at h
  | cons c rest2 ih =>
    intro acc cls rest h
    rw [scanClass] at h
    by_cases hc : c = ']'
    · simp [hc] at h
      simp [h.2.symm, Nat.lt_succ_self]
    · simp [hc] at h
      exact Nat.lt_succ_of_lt (ih (c :: acc) cls rest h)

theorem splitClassAfter_length (neg neg2 : Bool) (cs cls rest : List Char)
    (h : splitClassAfter neg cs = some (neg2, cls, rest)) : rest.length < cs.length := by
  cases cs with
  | nil => simp [splitClassAfter] at h
  | cons c cs2 =>
    rw [splitClassAfter] at h
    cases hscan : scanClass [c] cs2 with
    | none => rw [hscan] at h; simp at h
    | some r =>
      rw [hscan] at h
      have := scanClass_length cs2 [c] r.1 r.2 (by rw [hscan])
      have hr : r.2 = rest := by
        cases r
        simp at h
        exact h.2.2
      rw [hr] at this
      simp
      omega

theorem splitClass_length (ps : List Char) (neg : Bool) (cls rest : List Char)
    (h : splitClass ps = some (neg, cls, rest)) : rest.length < ps.length := by
  cases ps with
  | nil => simp [splitClass] at h
  | cons c ps2 =>
    rw [splitClass] at h
    by_cases hc : c = '!'
    · simp only [hc, if_pos] at h
      have := splitClassAfter_length true neg ps2 cls rest h
      simp
      omega
    · simp only [if_neg hc] at h
      exact splitClassAfter_length false neg (c :: ps2) cls rest h

/-- The glob matcher underlying `fnmatch.fnmatchcase` (pattern against
string, both as code-point lists).  Structural recursion on a fuel counter;
every recursive step strictly shrinks `ps.length + s.length`, so any fuel
above that sum computes the fuel-free fixpoint (`globMatchF_fuel_irrel`). -/
def globMatchF (fuel : Nat) (ps s : List Char) : Bool :=
  match fuel with
  | 0 => false
  | fuel2 + 1 =>
    match ps with
    | [] => s.isEmpty
    | p :: ps2 =>
      if p = '*' then
        globMatchF fuel2 ps2 s ||
          (match s with
           | [] => false
           | _ :: s3 => globMatchF fuel2 ps s3)
      else if p = '?' then
        (match s with
         | [] => false
         | _ :: s3 => globMatchF fuel2 ps2 s3)
      else if p = '[' then
        (match splitClass ps2 with
         | some (neg, cls, rest) =>
           (match s with
            | [] => false
            | c :: s3 => (classMatch cls c != neg) && globMatchF fuel2 rest s3)
         | none =>
           (match s with
            | [] => false
            | c :: s3 => decide (c = '[') && globMatchF fuel2 ps2 s3))
      else
        (match s with
         | [] => false
         | c :: s3 => decide (c = p) && globMatchF fuel2 ps2 s3)

/-- Adequate fuel makes `globMatchF` fuel-independent: the definition below
with `ps.length + s.length + 1` is the glob matcher's fixpoint. -/
theorem globMatchF_fuel_irrel (f : Nat) :
    ∀ g ps s, ps.length + s.length < f → ps.length + s.length < g →
      globMatchF f ps s = globMatchF g ps s := by
  induction f using Nat.strong_induction_on with
  | _ f ih =>
    intro g ps s hf hg
    match f, g with
    | f2 + 1, g2 + 1 =>
      rw [globMatchF.eq_def]
      rw [globMatchF.eq_def (g2 + 1)]
      cases ps with
      | nil => rfl
      | cons p ps2 =>
        simp only [List.length_cons] at hf hg
        by_cases hstar : p = '*'
        · subst hstar
          have h1 : globMatchF f2 ps2 s = globMatchF g2 ps2 s :=
            ih f2 (by omega) g2 ps2 s (by omega) (by omega)
          cases s with
          | nil => simp [h1]
          | cons c s3 =>
            simp only [List.length_cons] at hf hg
            have h2 : globMatchF f2 ('*' :: ps2) s3 = globMatchF g2 ('*' :: ps2) s3 :=
              ih f2 (by omega) g2 ('*' :: ps2) s3 (by simp; omega) (by simp; omega)
            simp [h1, h2]
        · by_cases hq : p = '?'
          · subst hq
            cases s with
            | nil => simp
            | cons c s3 =>
              simp only [List.length_cons] at hf hg
              have h3 : globMatchF f2 ps2 s3 = globMatchF g2 ps2 s3 :=
                ih f2 (by omega) g2 ps2 s3 (by omega) (by omega)
              simp [h3]
          · by_cases hb : p = '['
            · subst hb
              cases hsp : splitClass ps2 with
              | some r =>
                obtain ⟨neg, cls, rest⟩ := r
                have hlen := splitClass_length ps2 neg cls rest hsp
                cases s with
                | nil => simp [hsp]
                | cons c s3 =>
                  simp only [List.length_cons] at hf hg
                  have h4 : globMatchF f2 rest s3 = globMatchF g2 rest s3 :=
                    ih f2 (by omega) g2 rest s3 (by omega) (by omega)
                  simp [hsp, h4]
              | none =>
                cases s with
                | nil => simp [hsp]
                | cons c s3 =>
                  simp only [List.length_cons] at hf hg
                  have h5 : globMatchF f2 ps2 s3 = globMatchF g2 ps2 s3 :=
                    ih f2 (by omega) g2 ps2 s3 (by omega) (by omega)
                  simp [hsp, h5]
            · cases s with
              | nil => simp [hstar, hq, hb]
              | cons c s3 =>
                simp only [List.length_cons] at hf hg
                have h6 : globMatchF f2 ps2 s3 = globMatchF g2 ps2 s3 :=
                  ih f2 (by omega) g2 ps2 s3 (by omega) (by omega)
                simp [hstar, hq, hb, h6]

/-- The glob matcher at its fixpoint fuel. -/
def globMatch (ps s : List Char) : Bool :=
  globMatchF (ps.length + s.length + 1) ps s

/-- `fnmatch.fnmatchcase(name, pattern)`. -/
def fnmatchcase (name pattern : Str) : Bool :=
  globMatch pattern name

namespace Repository

/-- `Repository.keys`: delegates to `Storage.get_names`. -/
def keys (s : Storage) : List Str :=
  Storage.get_names s

/-- `Repository.get`: delegates to `Storage.get`; `none` when absent. -/
def get (s : Storage) (name : Str) : Option Entry :=
  Storage.get s name

/-- `Repository.get_name_at_index`: delegates to the backend. -/
def get_name_at_index (s : Storage) (index : Int) : Option Str :=
  Storage.get_name_at_index s index

/-- `Repository.set(name, value)`: raises `MissingRegisterError` when the
register does not exist, `ConflictError` when `convert` rejects the candidate,
otherwise writes the converted value with the existing mutability flag.
Parametric in the conversion function `cv` (external `convert`). -/
def set (cv : Value → Value → Option Value) (s : Storage) (name : Str)
    (value : Value) : Except RepoError Unit × Storage :=
  match Storage.get s name with
  | none => (Except.error (RepoError.missingRegister name), s)
  | some e =>
    match cv e.value value with
    | none => (Except.error (RepoError.conflict e.value value), s)
    | some converted =>
      (Except.ok (), Storage.set s name ⟨converted, e.mutable⟩)

/-- `Repository.create(name, value, mutable)`: behaves like `set`, and only the
`MissingRegisterError` branch is caught and turned into a fresh write of
`Entry(value, mutable)`; a `ConflictError` propagates. -/
def create (cv : Value → Value → Option Value) (s : Storage) (name : Str)
    (value : Value) (mutable : Bool) : Except RepoError Unit × Storage :=
  match set cv s name value with
  | (Except.error (RepoError.missingRegister _), s2) =>
    (Except.ok (), Storage.set s2 name ⟨value, mutable⟩)
  | other => other

/-- `Repository.access(name, value)`: the `uavcan.register.Access` read-or-
conditional-write transaction; returns an Entry and never raises. -/
def access (cv : Value → Value → Option Value) (s : Storage) (name : Str)
    (value : Value) : Entry × Storage :=
  match Storage.get s name with
  | none => (⟨Value.empty, false⟩, s)
  | some e =>
    match cv e.value value with
    | some converted =>
      if e.mutable then
        (⟨converted, e.mutable⟩, Storage.set s name ⟨converted, e.mutable⟩)
      else (e, s)
    | none => (e, s)

/-- `Repository.delete(wildcard)`: case-sensitive glob match against the
current keys, then batched backend delete of the matched subset. -/
def delete (s : Storage) (wildcard : Str) : Storage :=
  Storage.delete s ((keys s).filter (fun n => fnmatchcase n wildcard))

end Repository

/-- The reserved in-memory location token of the concrete backend
(`_LOCATION_VOLATILE = ":memory:"`). -/
def LOCATION_VOLATILE : Str := [':', 'm', 'e', 'm', 'o', 'r', 'y', ':']

/-- Python `str.strip()`: drop leading and trailing whitespace. -/
def pyStrip (s : Str) : Str :=
  ((s.dropWhile Char.isWhitespace).reverse.dropWhile Char.isWhitespace).reverse

/-- Python `str.lower()` (ASCII-relevant part). -/
def pyLower (s : Str) : Str :=
  s.map Char.toLower

namespace SQLiteStorage

/-- `SQLiteStorage.__init__`: `self._loc = str(location or _LOCATION_VOLATILE).strip()`
— an empty (falsy) location falls back to the in-memory token, then the result
is stripped of surrounding whitespace. -/
def loc (location : Str) : Str :=
  pyStrip (if location = [] then LOCATION_VOLATILE else location)

/-- `SQLiteStorage.persistent`: `self._loc.lower() != _LOCATION_VOLATILE`. -/
def persistent (location : Str) : Bool :=
  pyLower (loc location) ≠ LOCATION_VOLATILE

end SQLiteStorage

/-- Convenience injection of Lean string literals into embedded strings. -/
def pyStr (s : String) : Str := s.data

/-- A sample conversion strategy used to instantiate the abstract `convert`
parameter in concrete witnesses: it succeeds (returning the candidate) exactly
when the candidate already populates the existing variant with the same array
length, the trivially-allowed case of the conversion contract. -/
def convertExact (existing candidate : Value) : Option Value :=
  match existing, candidate with
  | Value.empty, Value.empty => some candidate
  | Value.string _, Value.string _ => some candidate
  | Value.unstructured _, Value.unstructured _ => some candidate
  | Value.bit a, Value.bit b => if a.length = b.length then some candidate else none
  | Value.int64 a, Value.int64 b => if a.length = b.length then some candidate else none
  | Value.natural64 a, Value.natural64 b => if a.length = b.length then some candidate else none
  | _, _ => none

/-! Auxiliary facts about the storage model. -/

theorem find?_filter_keep {α : Type} (l : List α) (p q : α → Bool)
    (h : ∀ x, p x = true → q x = true) : (l.filter q).find? p = l.find? p := by
  induction l with
  | nil => rfl
  | cons a l2 ih =>
    by_cases hq : q a = true
    · cases hp : p a with
      | true => simp [List.filter_cons, hq, List.find?_cons, hp]
      | false => simp [List.filter_cons, hq, List.find?_cons, hp, ih]
    · have hp : p a = false := by
        cases hpa : p a
        · rfl
        · exact absurd (h a hpa) hq
      simp [List.filter_cons, hq, List.find?_cons, hp, ih]

theorem Storage.get_set_self (s : Storage) (name : Str) (e : Entry) :
    Storage.get (Storage.set s name e) name = some e := by
  unfold Storage.get Storage.set
  rw [List.find?_append]
  have hnone : (s.regs.filter (fun p => ¬ p.1 = name)).find? (fun p => p.1 = name) = none := by
    rw [List.find?_eq_none]
    intro x hx
    have := List.of_mem_filter hx
    simp at this
    simp [this]
  rw [hnone]
  simp [List.find?]

theorem Storage.get_set_other (s : Storage) (name name2 : Str) (e : Entry)
    (h : ¬ name2 = name) :
    Storage.get (Storage.set s name e) name2 = Storage.get s name2 := by
  unfold Storage.get Storage.set
  rw [List.find?_append]
  have h1 : (s.regs.filter (fun p => ¬ p.1 = name)).find? (fun p => p.1 = name2)
      = s.regs.find? (fun p => p.1 = name2) := by
    apply find?_filter_keep
    intro x hx
    simp at hx
    simp [hx, h]
  rw [h1]
  have h2 : ([(name, e)].find? (fun p => p.1 = name2)) = none := by
    rw [List.find?_eq_none]
    intro x hx
    simp at hx
    simp [hx]
    exact fun hc => h hc.symm
  rw [h2]
  cases s.regs.find? (fun p => p.1 = name2) <;> rfl

theorem Storage.get_delete (s : Storage) (names : List Str) (name : Str) :
    Storage.get (Storage.delete s names) name
      = if name ∈ names then none else Storage.get s name := by
  unfold Storage.get Storage.delete
  by_cases hmem : name ∈ names
  · rw [if_pos hmem]
    have hnone : (s.regs.filter (fun p => ¬ names.contains p.1)).find? (fun p => p.1 = name)
        = none := by
      rw [List.find?_eq_none]
      intro x hx
      have := List.of_mem_filter hx
      simp at this ⊢
      intro hx1
      exact this (hx1 ▸ hmem)
    rw [hnone]
    rfl
  · rw [if_neg hmem]
    have h1 : (s.regs.filter (fun p => ¬ names.contains p.1)).find? (fun p => p.1 = name)
        = s.regs.find? (fun p => p.1 = name) := by
      apply find?_filter_keep
      intro x hx
      simp at hx
      simp [hx]
      exact hmem
    rw [h1]

theorem Storage.mem_get_names (s : Storage) (a : Str) :
    a ∈ Storage.get_names s ↔ a ∈ s.regs.map Prod.fst := by
  unfold Storage.get_names
  exact (List.perm_insertionSort _ _).mem_iff

theorem Storage.get_names_length (s : Storage) :
    (Storage.get_names s).length = Storage.count s := by
  unfold Storage.get_names Storage.count
  rw [(List.perm_insertionSort _ _).length_eq, List.length_map]

theorem Storage.get_eq_none_iff (s : Storage) (name : Str) :
    Storage.get s name = none ↔ ¬ name ∈ s.regs.map Prod.fst := by
  unfold Storage.get
  rw [Option.map_eq_none', List.find?_eq_none]
  constructor
  · intro h hmem
    obtain ⟨x, hx, hfst⟩ := List.mem_map.mp hmem
    exact absurd (by simpa using hfst) (by simpa using h x hx)
  · intro h x hx
    simp
    intro hfst
    exact h (List.mem_map.mpr ⟨x, hx, hfst⟩)

/-! Sample data for the closed witnesses. -/

/-- One mutable one-element bit register named `foo`, as in the doctests. -/
def sampleMutBit : Storage := ⟨[(pyStr "foo", ⟨Value.bit [true], true⟩)]⟩

/-- Three registers with glob-distinguishable names, as in the delete doctest. -/
def sampleThree : Storage :=
  ⟨[(pyStr "foo.bar", ⟨Value.empty, true⟩), (pyStr "zoo.bar", ⟨Value.empty, true⟩),
    (pyStr "foo.baz", ⟨Value.empty, true⟩)]⟩

/-! The claims. -/

/-- Claim C1: for every existing register, `Repository.access(name, candidate)`
writes and returns the converted Entry exactly when the register's mutable
flag is true and `convert(existing.value, candidate)` succeeds; in every other
case (immutable register with any candidate, or mutable register with a
non-convertible candidate) it returns the stored Entry unchanged and performs
no storage write. -/
theorem access_existing_register_semantics
    (cv : Value → Value → Option Value) (s : Storage) (name : Str) (value : Value)
    (e : Entry) (h : Storage.get s name = some e) :
    (∀ c, cv e.value value = some c → e.mutable = true →
        Repository.access cv s name value = (⟨c, true⟩, Storage.set s name ⟨c, true⟩))
    ∧ (e.mutable = false → Repository.access cv s name value = (e, s))
    ∧ (cv e.value value = none → Repository.access cv s name value = (e, s)) := by
  refine ⟨?_, ?_, ?_⟩
  · intro c hc hm
    simp [Repository.access, h, hc, hm]
  · intro hm
    cases hc : cv e.value value <;> simp [Repository.access, h, hc, hm]
  · intro hc
    simp [Repository.access, h, hc]

/-- Witness for C1: a mutable one-element bit register accepts a same-shape
candidate, and the write is observable in the returned storage. -/
theorem access_existing_register_semantics_witness :
    Repository.access convertExact sampleMutBit (pyStr "foo") (Value.bit [false])
      = (⟨Value.bit [false], true⟩,
         Storage.set sampleMutBit (pyStr "foo") ⟨Value.bit [false], true⟩) :=
  (access_existing_register_semantics convertExact sampleMutBit (pyStr "foo")
      (Value.bit [false]) ⟨Value.bit [true], true⟩ (by decide)).1
    (Value.bit [false]) (by decide) rfl

/-- Claim C2: `Repository.set(name, candidate)` raises `MissingRegisterError`
iff no such register exists, raises `ConflictError` iff the register exists
but conversion fails, and on either failure the storage is left unchanged. -/
theorem set_error_conditions
    (cv : Value → Value → Option Value) (s : Storage) (name : Str) (value : Value) :
    ((Repository.set cv s name value).1 = Except.error (RepoError.missingRegister name)
        ↔ Storage.get s name = none)
    ∧ (∀ e, Storage.get s name = some e →
        ((Repository.set cv s name value).1 = Except.error (RepoError.conflict e.value value)
          ↔ cv e.value value = none))
    ∧ (Storage.get s name = none →
        ∀ a b, (Repository.set cv s name value).1 ≠ Except.error (RepoError.conflict a b))
    ∧ (∀ err, (Repository.set cv s name value).1 = Except.error err
        → (Repository.set cv s name value).2 = s) := by
  refine ⟨?_, ?_, ?_, ?_⟩
  · cases h : Storage.get s name with
    | none => simp [Repository.set, h]
    | some e => cases hc : cv e.value value <;> simp [Repository.set, h, hc]
  · intro e h
    cases hc : cv e.value value <;> simp [Repository.set, h, hc]
  · intro h a b
    simp [Repository.set, h]
  · intro err herr
    cases h : Storage.get s name with
    | none => simp [Repository.set, h]
    | some e =>
      cases hc : cv e.value value with
      | none => simp [Repository.set, h, hc]
      | some c => simp [Repository.set, h, hc] at herr

/-- Witness for C2: setting a wrong-length candidate on the existing mutable
bit register raises `ConflictError` and leaves the storage untouched. -/
theorem set_error_conditions_witness :
    (Repository.set convertExact sampleMutBit (pyStr "foo") (Value.bit [true, false])).1
      = Except.error (RepoError.conflict (Value.bit [true]) (Value.bit [true, false]))
    ∧ (Repository.set convertExact sampleMutBit (pyStr "foo") (Value.bit [true, false])).2
      = sampleMutBit := by
  have hc := ((set_error_conditions convertExact sampleMutBit (pyStr "foo")
      (Value.bit [true, false])).2.1 ⟨Value.bit [true], true⟩ (by decide)).mpr (by decide)
  exact ⟨hc, (set_error_conditions convertExact sampleMutBit (pyStr "foo")
      (Value.bit [true, false])).2.2.2 _ hc⟩

/-- Claim C3: `Repository.access` on a nonexistent name returns an Entry with
the empty variant and `mutable = false`, and leaves storage (hence the
register count) unchanged. -/
theorem access_missing_returns_empty_immutable
    (cv : Value → Value → Option Value) (s : Storage) (name : Str) (value : Value)
    (h : Storage.get s name = none) :
    Repository.access cv s name value = (⟨Value.empty, false⟩, s)
    ∧ Storage.count (Repository.access cv s name value).2 = Storage.count s := by
  constructor <;> simp [Repository.access, h]

/-- Witness for C3: accessing a name absent from the empty storage. -/
theorem access_missing_returns_empty_immutable_witness :
    Repository.access convertExact ⟨[]⟩ (pyStr "foo") Value.empty
      = (⟨Value.empty, false⟩, (⟨[]⟩ : Storage)) :=
  (access_missing_returns_empty_immutable convertExact ⟨[]⟩ (pyStr "foo") Value.empty
    (by decide)).1

/-- Claim C4: whenever a write to an existing register goes through
`Repository.set`, `Repository.create` or `Repository.access`, the stored
mutable flag afterwards equals the flag stored before; in particular the
`mutable` argument of `create` is ignored on an existing register. -/
theorem write_preserves_mutability
    (cv : Value → Value → Option Value) (s : Storage) (name : Str) (value : Value)
    (mflag : Bool) (e : Entry) (h : Storage.get s name = some e) :
    ((Storage.get (Repository.set cv s name value).2 name).map Entry.mutable
        = some e.mutable)
    ∧ ((Storage.get (Repository.create cv s name value mflag).2 name).map Entry.mutable
        = some e.mutable)
    ∧ ((Storage.get (Repository.access cv s name value).2 name).map Entry.mutable
        = some e.mutable) := by
  cases hc : cv e.value value with
  | none =>
    refine ⟨?_, ?_, ?_⟩ <;>
      simp [Repository.set, Repository.create, Repository.access, h, hc]
  | some c =>
    refine ⟨?_, ?_, ?_⟩
    · simp [Repository.set, h, hc, Storage.get_set_self]
    · simp [Repository.create, Repository.set, h, hc, Storage.get_set_self]
    · cases hm : e.mutable <;>
        simp [Repository.access, h, hc, hm, Storage.get_set_self]

/-- Witness for C4: a successful write through each operation on the mutable
register keeps its mutable flag even though `create` is passed `false`. -/
theorem write_preserves_mutability_witness :
    ((Storage.get (Repository.set convertExact sampleMutBit (pyStr "foo")
        (Value.bit [false])).2 (pyStr "foo")).map Entry.mutable = some true)
    ∧ ((Storage.get (Repository.create convertExact sampleMutBit (pyStr "foo")
        (Value.bit [false]) false).2 (pyStr "foo")).map Entry.mutable = some true)
    ∧ ((Storage.get (Repository.access convertExact sampleMutBit (pyStr "foo")
        (Value.bit [false])).2 (pyStr "foo")).map Entry.mutable = some true) :=
  write_preserves_mutability convertExact sampleMutBit (pyStr "foo") (Value.bit [false])
    false ⟨Value.bit [true], true⟩ (by decide)

/-- Claim C5: `Repository.access` never raises — for every name and candidate
its outcome is one of the three ordinary Entry results: the ephemeral empty
immutable Entry (missing register, storage untouched), the stored Entry
unchanged (immutable register or failed conversion, storage untouched), or
the converted Entry together with the corresponding storage write. -/
theorem access_never_raises
    (cv : Value → Value → Option Value) (s : Storage) (name : Str) (value : Value) :
    (Storage.get s name = none
        ∧ Repository.access cv s name value = (⟨Value.empty, false⟩, s))
    ∨ (∃ e, Storage.get s name = some e ∧ Repository.access cv s name value = (e, s))
    ∨ (∃ e c, Storage.get s name = some e ∧ cv e.value value = some c
        ∧ e.mutable = true
        ∧ Repository.access cv s name value
            = (⟨c, true⟩, Storage.set s name ⟨c, true⟩)) := by
  cases h : Storage.get s name with
  | none => exact Or.inl ⟨rfl, by simp [Repository.access, h]⟩
  | some e =>
    cases hc : cv e.value value with
    | none => exact Or.inr (Or.inl ⟨e, rfl, by simp [Repository.access, h, hc]⟩)
    | some c =>
      cases hm : e.mutable with
      | false => exact Or.inr (Or.inl ⟨e, rfl, by simp [Repository.access, h, hc, hm]⟩)
      | true =>
        exact Or.inr (Or.inr ⟨e, c, rfl, hc, hm, by simp [Repository.access, h, hc, hm]⟩)

/-- Claim C6: for a name not previously stored, `create(name, value, mutable)`
succeeds and an immediate `get(name)` returns exactly `(value, mutable)`. -/
theorem create_then_get_roundtrip
    (cv : Value → Value → Option Value) (s : Storage) (name : Str) (value : Value)
    (mflag : Bool) (h : Storage.get s name = none) :
    (Repository.create cv s name value mflag).1 = Except.ok ()
    ∧ Repository.get (Repository.create cv s name value mflag).2 name
        = some ⟨value, mflag⟩ := by
  constructor <;>
    simp [Repository.create, Repository.set, Repository.get, h, Storage.get_set_self]

/-- Witness for C6: creating an immutable bit register in empty storage and
reading it back yields the same value and flag. -/
theorem create_then_get_roundtrip_witness :
    (Repository.create convertExact ⟨[]⟩ (pyStr "foo") (Value.bit [true]) false).1
      = Except.ok ()
    ∧ Repository.get (Repository.create convertExact ⟨[]⟩ (pyStr "foo")
        (Value.bit [true]) false).2 (pyStr "foo") = some ⟨Value.bit [true], false⟩ :=
  create_then_get_roundtrip convertExact ⟨[]⟩ (pyStr "foo") (Value.bit [true]) false
    (by decide)

/-- Claim C7: `Repository.delete(wildcard)` removes exactly the stored names
matching the case-sensitive glob (after it, lookup of any matching name is
`none` and lookup of any non-matching name is unchanged), and when no stored
name matches the call leaves the storage identical (a no-op, no error). -/
theorem delete_removes_exactly_matching (s : Storage) (wildcard : Str) :
    (∀ name, Storage.get (Repository.delete s wildcard) name
        = if fnmatchcase name wildcard then none else Storage.get s name)
    ∧ ((∀ n ∈ Repository.keys s, fnmatchcase n wildcard = false)
        → Repository.delete s wildcard = s) := by
  constructor
  · intro name
    rw [Repository.delete, Storage.get_delete]
    by_cases hm : fnmatchcase name wildcard
    · rw [if_pos hm]
      by_cases hk : name ∈ s.regs.map Prod.fst
      · rw [if_pos]
        rw [List.mem_filter]
        exact ⟨(Storage.mem_get_names s name).mpr hk, by simpa using hm⟩
      · rw [if_neg, (Storage.get_eq_none_iff s name).mpr hk]
        rw [List.mem_filter]
        intro hcontra
        exact hk ((Storage.mem_get_names s name).mp hcontra.1)
    · rw [if_neg hm, if_neg]
      rw [List.mem_filter]
      intro hcontra
      exact hm (by simpa using hcontra.2)
  · intro hall
    have hnil : (Repository.keys s).filter (fun n => fnmatchcase n wildcard) = [] := by
      rw [List.filter_eq_nil_iff]
      intro a ha
      simp [hall a ha]
    rw [Repository.delete, hnil]
    show Storage.mk (s.regs.filter (fun p => ¬ ([] : List Str).contains p.1)) = s
    simp

/-- Witness for C7: deleting a glob that matches none of the three sample
registers is a no-op. -/
theorem delete_removes_exactly_matching_witness :
    Repository.delete sampleThree (pyStr "nothing.*") = sampleThree :=
  (delete_removes_exactly_matching sampleThree (pyStr "nothing.*")).2 (by decide)

/-- Counterexample to claim C8 as stated: the empty location string and a
case variant of the reserved token both select volatile mode (`persistent()`
is false), whereas the claim says every string other than the exact reserved
token selects persistent mode. -/
theorem persistent_claim_counterexample :
    SQLiteStorage.persistent (pyStr ":MEMORY:") = false
    ∧ SQLiteStorage.persistent (pyStr "") = false := by
  constructor <;> decide

/-- Claim C8, amended: `persistent()` is false exactly when the location
string is empty (it then falls back to the reserved token) or equals the
reserved in-memory token up to surrounding whitespace and character case;
every other location string selects persistent mode. -/
theorem persistent_iff_not_volatile_token (location : Str) :
    SQLiteStorage.persistent location = true
      ↔ ¬ (location = [] ∨ pyLower (pyStrip location) = LOCATION_VOLATILE) := by
  by_cases hl : location = []
  · subst hl
    simp [SQLiteStorage.persistent, SQLiteStorage.loc]
    decide
  · simp [SQLiteStorage.persistent, SQLiteStorage.loc, hl]

/-- Claim C9: `Repository.keys()` (and iteration, which iterates `keys()`)
yields the currently stored names sorted lexicographically: the list is
sorted, contains exactly the stored names, and depends only on which names
are stored, not on their insertion order. -/
theorem keys_sorted_and_complete (s : Storage) :
    (Repository.keys s).Sorted (· ≤ ·)
    ∧ (∀ n, n ∈ Repository.keys s ↔ n ∈ s.regs.map Prod.fst)
    ∧ (∀ s2 : Storage, List.Perm (s.regs.map Prod.fst) (s2.regs.map Prod.fst)
        → Repository.keys s = Repository.keys s2) := by
  refine ⟨List.sorted_insertionSort _ _, fun n => Storage.mem_get_names s n, ?_⟩
  intro s2 hperm
  have h1 : List.Perm (Repository.keys s) (Repository.keys s2) := by
    unfold Repository.keys Storage.get_names
    exact ((List.perm_insertionSort _ _).trans hperm).trans
      (List.perm_insertionSort _ _).symm
  exact List.eq_of_perm_of_sorted h1 (List.sorted_insertionSort _ _)
    (List.sorted_insertionSort _ _)

/-- Witness for C9: two storages holding the same two names inserted in
opposite orders produce the same sorted key list. -/
theorem keys_sorted_and_complete_witness :
    Repository.keys ⟨[(pyStr "b", ⟨Value.empty, true⟩), (pyStr "a", ⟨Value.empty, false⟩)]⟩
      = Repository.keys ⟨[(pyStr "a", ⟨Value.empty, true⟩), (pyStr "b", ⟨Value.empty, true⟩)]⟩ :=
  (keys_sorted_and_complete
      ⟨[(pyStr "b", ⟨Value.empty, true⟩), (pyStr "a", ⟨Value.empty, false⟩)]⟩).2.2
    ⟨[(pyStr "a", ⟨Value.empty, true⟩), (pyStr "b", ⟨Value.empty, true⟩)]⟩ (by decide)

/-- Claim C10: `get_name_at_index` returns `none` iff the index is at or past
the register count, but only for non-negative indices; a negative index `-k`
with `1 ≤ k ≤ count` is Python negative indexing: it returns the `k`-th name
from the end of the sorted name list — an existing name, not `none`. -/
theorem get_name_at_index_negative_indexing (s : Storage) (i : Int) (k : Nat) :
    (0 ≤ i → (Repository.get_name_at_index s i = none ↔ Storage.count s ≤ i.toNat))
    ∧ (1 ≤ k → k ≤ Storage.count s →
        ∃ nm, Repository.get_name_at_index s (-(k : Int)) = some nm
          ∧ (Storage.get_names s).get? (Storage.count s - k) = some nm
          ∧ nm ∈ Repository.keys s) := by
  constructor
  · intro hi
    rw [Repository.get_name_at_index, Storage.get_name_at_index, if_pos hi]
    rw [List.get?_eq_none, Storage.get_names_length]
  · intro hk1 hk2
    rw [Repository.get_name_at_index, Storage.get_name_at_index]
    rw [if_neg (by omega)]
    have hlen : (Storage.get_names s).length = Storage.count s := Storage.get_names_length s
    have hj : ((Storage.get_names s).length : Int) + -(k : Int) = ((Storage.count s - k : Nat) : Int) := by
      omega
    rw [hj]
    rw [if_pos (by omega)]
    have hlt : Storage.count s - k < (Storage.get_names s).length := by omega
    refine ⟨(Storage.get_names s).get ⟨Storage.count s - k, hlt⟩, ?_, ?_, ?_⟩
    · rw [Int.toNat_ofNat]
      exact List.get?_eq_get hlt
    · exact List.get?_eq_get hlt
    · exact List.get_mem _ _ _

/-- Witness for C10: on a single-register storage, index 5 is out of range and
index -1 returns the only (hence last) name. -/
theorem get_name_at_index_negative_indexing_witness :
    (Repository.get_name_at_index sampleMutBit 5 = none)
    ∧ (∃ nm, Repository.get_name_at_index sampleMutBit (-(1 : Nat) : Int) = some nm
        ∧ (Storage.get_names sampleMutBit).get? (Storage.count sampleMutBit - 1) = some nm
        ∧ nm ∈ Repository.keys sampleMutBit) :=
  ⟨((get_name_at_index_negative_indexing sampleMutBit 5 1).1 (by decide)).mpr (by decide),
   (get_name_at_index_negative_indexing sampleMutBit 5 1).2 (by decide) (by decide)⟩
